import Mathlib

/-!
Shallow embedding of the bonus-potential cubing calculator
(frontend/src/App.tsx) and verification of its specification.

Numeric values that the source manipulates as JavaScript numbers are
modelled as rationals where the source only performs field arithmetic
and comparisons, and as reals where the estimator takes logarithms.
String formatting of results (toFixed, percent suffixes) is display
concern and is not modelled; the numeric content is.
-/

namespace MapleBpots

/-- One record of the bonus-potential catalog (interface
BonusPotentialEntry in the source).  The optional level range and stat
fields mirror the optional TypeScript fields. -/
structure BonusPotentialEntry where
  potential : String
  itemType : String
  tier : String
  probability : ℚ
  levelRangeMin : Option Int
  levelRangeMax : Option Int
  statType : Option String
  statValue : Option ℚ
  deriving DecidableEq

/-- A row of the user-supplied stat table (statValues in the source):
the observed raw stat magnitude and the observed bonus percentage.  The
source stores both as strings and parses them with parseFloat; we model
the parsed numeric content. -/
structure StatVal where
  value : ℚ
  fd : ℚ
  deriving DecidableEq

/-- The components of reactive state that the stat-conversion closure
potentialToFd reads: the alias table, the per-9-levels stat set, the
user stat table and the character level (already parsed to an
integer). -/
structure StatCtx where
  aliases : String → Option String
  per9 : String → Bool
  statValues : String → Option StatVal
  charLevel : Int

/-- Tier weight profile for one cube type (config.tierWeights.bright or
config.tierWeights.glowing in the source). -/
structure TierWeights where
  line2UniqueW : ℚ
  line2LegW : ℚ
  line3UniqueW : ℚ
  line3LegW : ℚ
  deriving DecidableEq

/-- Transient weighted candidate (type Cand in the source). -/
structure Cand where
  fd : ℚ
  cd : Nat
  prob : ℚ
  deriving DecidableEq

/-- JavaScript parseInt applied to a text input: skip leading
whitespace, read an optional sign and then the longest digit prefix;
NaN (here: none) when no digit is found.  Radix prefixes never occur in
the numeric inputs of this page and are not modelled. -/
def parseIntJS (s : String) : Option Int :=
  match s.data.dropWhile Char.isWhitespace with
  | [] => none
  | c :: rest =>
    let signed : Int × List Char :=
      if c = '-' then (-1, rest) else if c = '+' then (1, rest) else (1, c :: rest)
    let digs := signed.2.takeWhile Char.isDigit
    if digs.isEmpty then none
    else some (signed.1 * (digs.foldl (fun n d => 10 * n + (d.toNat - 48)) 0 : Nat))

/-- potentialToFd from the source: convert one catalog entry into its
effective bonus percentage.  A missing or empty statType, a missing
statValue, or the Skill Cooldown kind contribute 0; the alias table is
applied only for the stat-table lookup; a zero or absent observed
magnitude short-circuits to 0 before any division; per-9-level stats
scale the nominal magnitude by floor(charLevel / 9). -/
def potentialToFd (ctx : StatCtx) (entry : BonusPotentialEntry) : ℚ :=
  match entry.statType, entry.statValue with
  | some st, some sv =>
    if st == "" then 0
    else
      let lookupStat := (ctx.aliases st).getD st
      if st == "Skill Cooldown" then 0
      else
        let userVal := ((ctx.statValues lookupStat).map StatVal.value).getD 0
        let userFd := ((ctx.statValues lookupStat).map StatVal.fd).getD 0
        if userVal == 0 then 0
        else
          (if ctx.per9 st then sv * ((Int.fdiv ctx.charLevel 9 : Int) : ℚ) else sv) *
            (userFd / userVal)
  | _, _ => 0

/-- computeMultiplicativeFd from the source: multiplicative stacking of
percentage bonuses. -/
def computeMultiplicativeFd (fds : List ℚ) : ℚ :=
  (fds.foldl (fun product fd => product * (1 + fd / 100)) 1 - 1) * 100

/-- The level-eligibility test shared by the option-building effect
(inRange) and the filter inside handleCalculate: a missing minimum is
treated as 0 and a missing maximum as unbounded. -/
def inRange (lvl : Int) (p : BonusPotentialEntry) : Bool :=
  decide (p.levelRangeMin.getD 0 ≤ lvl) &&
    (match p.levelRangeMax with
     | some mx => decide (lvl ≤ mx)
     | none => true)

/-- The catalog filter at the top of handleCalculate: exact item-type
match plus level eligibility. -/
def eligibleEntries (allPots : List BonusPotentialEntry) (itemType : String) (lvl : Int) :
    List BonusPotentialEntry :=
  allPots.filter fun p => p.itemType == itemType && inRange lvl p

/-- findPot from the source, parametric in the display-name
normalisation function (cleanPotentialName in the source): first try an
exact tier match, then fall back to a name match in any tier. -/
def findPot (clean : String → String) (allPots : List BonusPotentialEntry)
    (potName : String) (tier : String) : Option BonusPotentialEntry :=
  (allPots.find? fun p => clean p.potential == potName && p.tier == tier) <|>
    (allPots.find? fun p => clean p.potential == potName)

/-- isCd from the source, over an optional entry. -/
def isCd (p : Option BonusPotentialEntry) : Bool :=
  match p with
  | some e => e.statType == some "Skill Cooldown"
  | none => false

/-- The baseline cooldown count: the number of selected lines whose
stat kind is Skill Cooldown, counted only when the user enabled the
cooldown checkbox. -/
def targetCdCount (skillCooldown : Bool) (sel1 sel2 sel3 : Option BonusPotentialEntry) : Nat :=
  if skillCooldown then ([sel1, sel2, sel3].filter fun p => isCd p).length else 0

/-- The per-line baseline bonuses: selected non-cooldown lines convert
through potentialToFd, everything else contributes 0. -/
def targetFds (ctx : StatCtx) (sel1 sel2 sel3 : Option BonusPotentialEntry) : List ℚ :=
  [sel1, sel2, sel3].map fun p =>
    match p with
    | some e => if isCd (some e) then 0 else potentialToFd ctx e
    | none => 0

/-- toCand from the source: derive a weighted candidate from an entry.
Cooldown entries carry bonus 0; the cooldown flag is only set when the
user enabled cooldown counting. -/
def toCand (skillCooldown : Bool) (ctx : StatCtx) (p : BonusPotentialEntry) (weight : ℚ) :
    Cand where
  fd := if isCd (some p) then 0 else potentialToFd ctx p
  cd := if skillCooldown && isCd (some p) then 1 else 0
  prob := p.probability * weight

/-- Line-1 candidates: legendary entries, weight 1. -/
def line1Cands (skillCooldown : Bool) (ctx : StatCtx)
    (legendaryPots : List BonusPotentialEntry) : List Cand :=
  legendaryPots.map fun p => toCand skillCooldown ctx p 1

/-- Line-2 candidates: unique entries under the line-2 unique weight
followed by legendary entries under the line-2 legendary weight. -/
def line2Cands (skillCooldown : Bool) (ctx : StatCtx)
    (uniquePots legendaryPots : List BonusPotentialEntry) (w : TierWeights) : List Cand :=
  (uniquePots.map fun p => toCand skillCooldown ctx p w.line2UniqueW) ++
    (legendaryPots.map fun p => toCand skillCooldown ctx p w.line2LegW)

/-- Line-3 candidates, analogous with the line-3 weights. -/
def line3Cands (skillCooldown : Bool) (ctx : StatCtx)
    (uniquePots legendaryPots : List BonusPotentialEntry) (w : TierWeights) : List Cand :=
  (uniquePots.map fun p => toCand skillCooldown ctx p w.line3UniqueW) ++
    (legendaryPots.map fun p => toCand skillCooldown ctx p w.line3LegW)

/-- calcProb from the source: the triple loop over the three candidate
lists, accumulating the product of weighted probabilities of every
combination that beats the baseline.  The local comboCd binding of the
source is inlined. -/
def calcProb (line1C line2C line3C : List Cand) (tCd : Nat) (tFd : ℚ) : ℚ :=
  line1C.foldl
    (fun acc1 c1 =>
      line2C.foldl
        (fun acc2 c2 =>
          line3C.foldl
            (fun acc3 c3 =>
              if tCd < c1.cd + c2.cd + c3.cd then acc3 + c1.prob * c2.prob * c3.prob
              else if c1.cd + c2.cd + c3.cd = tCd then
                if tFd < computeMultiplicativeFd [c1.fd, c2.fd, c3.fd] then
                  acc3 + c1.prob * c2.prob * c3.prob
                else acc3
              else acc3)
            acc2)
        acc1)
    0

/-- The winning condition exactly as the loop body tests it: strictly
more cooldown lines than the baseline, or equally many and a strictly
larger combined bonus. -/
def winsCombo (tCd : Nat) (tFd : ℚ) (c1 c2 c3 : Cand) : Prop :=
  tCd < c1.cd + c2.cd + c3.cd ∨
    (c1.cd + c2.cd + c3.cd = tCd ∧ tFd < computeMultiplicativeFd [c1.fd, c2.fd, c3.fd])

instance (tCd : Nat) (tFd : ℚ) (c1 c2 c3 : Cand) : Decidable (winsCombo tCd tFd c1 c2 c3) := by
  unfold winsCombo
  exact inferInstance

/-- The winning condition as the specification phrases it: on equal
cooldown counts the combined bonus is taken over the non-cooldown lines
only. -/
def winsComboSpec (tCd : Nat) (tFd : ℚ) (c1 c2 c3 : Cand) : Prop :=
  tCd < c1.cd + c2.cd + c3.cd ∨
    (c1.cd + c2.cd + c3.cd = tCd ∧
      tFd < computeMultiplicativeFd ((([c1, c2, c3].filter fun c => c.cd == 0).map Cand.fd)))

instance (tCd : Nat) (tFd : ℚ) (c1 c2 c3 : Cand) :
    Decidable (winsComboSpec tCd tFd c1 c2 c3) := by
  unfold winsComboSpec
  exact inferInstance

/-- The numeric content of the CubeResult record: avgCubes and the four
percentiles; none models the JavaScript Infinity sentinel.  The
formatted probability string of the source record is display only and
not modelled. -/
structure CubeResult where
  avgCubes : Option ℝ
  p25 : Option ℝ
  p50 : Option ℝ
  p75 : Option ℝ
  p90 : Option ℝ

open Classical in
/-- geomPercentile from the source: the geometric-distribution quantile
with the two guard branches. -/
noncomputable def geomPercentile (p q : ℝ) : Option ℝ :=
  if p ≤ 0 then none
  else if 1 ≤ p then some 1
  else some ((⌈Real.log (1 - q) / Real.log (1 - p)⌉ : ℤ) : ℝ)

open Classical in
/-- buildResult from the source: expected attempts (1 divided by the
probability when positive, else the Infinity sentinel) and the four
quantiles. -/
noncomputable def buildResult (prob : ℝ) : CubeResult where
  avgCubes := if 0 < prob then some (1 / prob) else none
  p25 := geomPercentile prob 0.25
  p50 := geomPercentile prob 0.50
  p75 := geomPercentile prob 0.75
  p90 := geomPercentile prob 0.90

open Classical in
/-- The percentile-estimator contract as the specification states it,
amended only in the p greater than one case: there the source returns
1 divided by p as the expected attempt count (equal to 1 exactly at
p equal to 1), while all percentiles are 1. -/
noncomputable def estimateAmendedSpec (p : ℝ) : CubeResult :=
  if p ≤ 0 then ⟨none, none, none, none, none⟩
  else if 1 ≤ p then ⟨some (1 / p), some 1, some 1, some 1, some 1⟩
  else
    ⟨some (1 / p),
      some ((⌈Real.log (1 - 0.25) / Real.log (1 - p)⌉ : ℤ) : ℝ),
      some ((⌈Real.log (1 - 0.50) / Real.log (1 - p)⌉ : ℤ) : ℝ),
      some ((⌈Real.log (1 - 0.75) / Real.log (1 - p)⌉ : ℤ) : ℝ),
      some ((⌈Real.log (1 - 0.90) / Real.log (1 - p)⌉ : ℤ) : ℝ)⟩

/-- handleCalculate from the source, as a function of its inputs,
returning the bright and glowing success probabilities (the numeric
inputs of the two buildResult calls), or none when the early guard on
a missing item type or an unparsable item level fires. -/
def handleCalc (allPots : List BonusPotentialEntry) (clean : String → String)
    (ctx : StatCtx) (skillCooldown : Bool) (itemType level : String)
    (line1 line2 line3 : String) (bright glowing : TierWeights) : Option (ℚ × ℚ) :=
  match parseIntJS level with
  | none => none
  | some lvl =>
    if itemType == "" then none
    else
      let pots := eligibleEntries allPots itemType lvl
      let legendaryPots := pots.filter fun p => p.tier == "legendary"
      let uniquePots := pots.filter fun p => p.tier == "unique"
      let sel1 := findPot clean pots line1 "legendary"
      let sel2 := findPot clean pots line2 "legendary" <|> findPot clean pots line2 "unique"
      let sel3 := findPot clean pots line3 "legendary" <|> findPot clean pots line3 "unique"
      let tCd := targetCdCount skillCooldown sel1 sel2 sel3
      let tFd := computeMultiplicativeFd (targetFds ctx sel1 sel2 sel3)
      some
        (calcProb (line1Cands skillCooldown ctx legendaryPots)
          (line2Cands skillCooldown ctx uniquePots legendaryPots bright)
          (line3Cands skillCooldown ctx uniquePots legendaryPots bright) tCd tFd,
         calcProb (line1Cands skillCooldown ctx legendaryPots)
          (line2Cands skillCooldown ctx uniquePots legendaryPots glowing)
          (line3Cands skillCooldown ctx uniquePots legendaryPots glowing) tCd tFd)

/-! ### Concrete instances used by witnesses and counterexamples -/

/-- A stat context with no aliases, no per-9 stats and an empty stat
table. -/
def ctx0 : StatCtx :=
  ⟨fun _ => none, fun _ => false, fun _ => none, 260⟩

/-- A stat context whose table carries magnitude 10 and bonus 5 percent
for the Attack stat. -/
def ctxA : StatCtx :=
  ⟨fun _ => none, fun _ => false,
   fun s => if s == "Attack" then some ⟨10, 5⟩ else none, 260⟩

/-- A stat context where the raw name Raw aliases to Canon, only the
raw name is in the per-9 set, and the table carries data under the
canonical name. -/
def ctxB : StatCtx :=
  ⟨fun s => if s == "Raw" then some "Canon" else none,
   fun s => s == "Raw",
   fun s => if s == "Canon" then some ⟨10, 5⟩ else none, 260⟩

/-- A legendary skill-cooldown catalog entry with probability 1. -/
def cdPot : BonusPotentialEntry :=
  ⟨"CD", "hat", "legendary", 1, none, none, some "Skill Cooldown", some 1⟩

/-- A legendary attack catalog entry with probability 1. -/
def attPot : BonusPotentialEntry :=
  ⟨"ATT", "hat", "legendary", 1, none, none, some "Attack", some 10⟩

/-- A legendary entry whose raw stat name differs from its canonical
name. -/
def rawPot : BonusPotentialEntry :=
  ⟨"RAW", "hat", "legendary", 1, none, none, some "Raw", some 10⟩

/-- A unique-tier and a legendary-tier entry sharing the display name
A. -/
def uniqA : BonusPotentialEntry :=
  ⟨"A", "hat", "unique", 1, none, none, none, none⟩

/-- See uniqA. -/
def legA : BonusPotentialEntry :=
  ⟨"A", "hat", "legendary", 1, none, none, none, none⟩

/-- A two-tier demo catalog with one shared display name. -/
def demoPots : List BonusPotentialEntry := [uniqA, legA]

/-- A tier-weight profile with every weight 1. -/
def unitW : TierWeights := ⟨1, 1, 1, 1⟩

/-- A tier-weight profile with every weight 2: legal input to the
enumerator, but the per-line weighted masses exceed 1. -/
def heavyW : TierWeights := ⟨2, 2, 2, 2⟩

/-! ### Helper lemmas -/

/-- A left fold whose step adds a per-element amount is the initial
value plus the sum of those amounts. -/
theorem foldl_step_add {α : Type} (step : ℚ → α → ℚ) (f : α → ℚ)
    (h : ∀ acc c, step acc c = acc + f c) :
    ∀ (l : List α) (acc : ℚ), l.foldl step acc = acc + (l.map f).sum := by
  intro l
  induction l with
  | nil => intro acc; simp
  | cons c cs ih =>
    intro acc
    rw [List.foldl_cons, ih, h, List.map_cons, List.sum_cons]
    ring

/-- The enumeration loop computes the sum, over all combinations of
one candidate per line, of the weighted probability product of the
winning combinations. -/
theorem calcProb_eq_sum (l1 l2 l3 : List Cand) (tCd : Nat) (tFd : ℚ) :
    calcProb l1 l2 l3 tCd tFd =
      (l1.map fun c1 =>
        (l2.map fun c2 =>
          (l3.map fun c3 =>
            if winsCombo tCd tFd c1 c2 c3 then c1.prob * c2.prob * c3.prob else 0).sum).sum).sum := by
  have h3 : ∀ c1 c2 : Cand, ∀ (acc : ℚ) (c3 : Cand),
      (if tCd < c1.cd + c2.cd + c3.cd then acc + c1.prob * c2.prob * c3.prob
       else if c1.cd + c2.cd + c3.cd = tCd then
         if tFd < computeMultiplicativeFd [c1.fd, c2.fd, c3.fd] then
           acc + c1.prob * c2.prob * c3.prob
         else acc
       else acc) =
      acc + (if winsCombo tCd tFd c1 c2 c3 then c1.prob * c2.prob * c3.prob else 0) := by
    intro c1 c2 acc c3
    by_cases h1 : tCd < c1.cd + c2.cd + c3.cd
    · simp [winsCombo, h1]
    · by_cases h2 : c1.cd + c2.cd + c3.cd = tCd
      · by_cases hf : tFd < computeMultiplicativeFd [c1.fd, c2.fd, c3.fd]
        · simp [winsCombo, h1, h2, hf]
        · simp [winsCombo, h1, h2, hf]
      · simp [winsCombo, h1, h2]
  have e3 : ∀ c1 c2 : Cand, ∀ acc : ℚ,
      l3.foldl
        (fun acc3 c3 =>
          if tCd < c1.cd + c2.cd + c3.cd then acc3 + c1.prob * c2.prob * c3.prob
          else if c1.cd + c2.cd + c3.cd = tCd then
            if tFd < computeMultiplicativeFd [c1.fd, c2.fd, c3.fd] then
              acc3 + c1.prob * c2.prob * c3.prob
            else acc3
          else acc3) acc =
        acc + (l3.map fun c3 =>
          if winsCombo tCd tFd c1 c2 c3 then c1.prob * c2.prob * c3.prob else 0).sum :=
    fun c1 c2 acc => foldl_step_add _ _ (h3 c1 c2) l3 acc
  have e2 : ∀ c1 : Cand, ∀ acc : ℚ,
      l2.foldl
        (fun acc2 c2 =>
          l3.foldl
            (fun acc3 c3 =>
              if tCd < c1.cd + c2.cd + c3.cd then acc3 + c1.prob * c2.prob * c3.prob
              else if c1.cd + c2.cd + c3.cd = tCd then
                if tFd < computeMultiplicativeFd [c1.fd, c2.fd, c3.fd] then
                  acc3 + c1.prob * c2.prob * c3.prob
                else acc3
              else acc3) acc2) acc =
        acc + (l2.map fun c2 =>
          (l3.map fun c3 =>
            if winsCombo tCd tFd c1 c2 c3 then c1.prob * c2.prob * c3.prob else 0).sum).sum :=
    fun c1 acc => foldl_step_add _ _ (fun acc2 c2 => e3 c1 c2 acc2) l2 acc
  have e1 := foldl_step_add _ _ (fun acc1 c1 => e2 c1 acc1) l1 0
  unfold calcProb
  rw [e1, zero_add]

/-- Invariant of candidates built by toCand: either the cooldown flag
is clear, or it is set and the carried bonus is 0. -/
def cdInv (c : Cand) : Prop := c.cd = 0 ∨ (c.cd = 1 ∧ c.fd = 0)

theorem toCand_cdInv (skillCooldown : Bool) (ctx : StatCtx) (p : BonusPotentialEntry)
    (w : ℚ) : cdInv (toCand skillCooldown ctx p w) := by
  unfold cdInv toCand
  by_cases hc : isCd (some p)
  · cases skillCooldown with
    | false => left; simp [hc]
    | true => right; simp [hc]
  · left; simp [hc]

theorem line1Cands_cdInv (skillCooldown : Bool) (ctx : StatCtx)
    (legendaryPots : List BonusPotentialEntry) :
    ∀ c ∈ line1Cands skillCooldown ctx legendaryPots, cdInv c := by
  intro c hc
  unfold line1Cands at hc
  obtain ⟨p, _, rfl⟩ := List.mem_map.mp hc
  exact toCand_cdInv _ _ _ _

theorem line2Cands_cdInv (skillCooldown : Bool) (ctx : StatCtx)
    (uniquePots legendaryPots : List BonusPotentialEntry) (w : TierWeights) :
    ∀ c ∈ line2Cands skillCooldown ctx uniquePots legendaryPots w, cdInv c := by
  intro c hc
  unfold line2Cands at hc
  rcases List.mem_append.mp hc with h | h <;>
    (obtain ⟨p, _, rfl⟩ := List.mem_map.mp h; exact toCand_cdInv _ _ _ _)

theorem line3Cands_cdInv (skillCooldown : Bool) (ctx : StatCtx)
    (uniquePots legendaryPots : List BonusPotentialEntry) (w : TierWeights) :
    ∀ c ∈ line3Cands skillCooldown ctx uniquePots legendaryPots w, cdInv c := by
  intro c hc
  unfold line3Cands at hc
  rcases List.mem_append.mp hc with h | h <;>
    (obtain ⟨p, _, rfl⟩ := List.mem_map.mp h; exact toCand_cdInv _ _ _ _)

/-- Under the toCand invariant, combining all three carried bonuses is
the same as combining the bonuses of the non-cooldown lines only:
cooldown lines carry bonus 0, a neutral multiplicand. -/
theorem cmf_filter_of_cdInv (c1 c2 c3 : Cand)
    (h1 : cdInv c1) (h2 : cdInv c2) (h3 : cdInv c3) :
    computeMultiplicativeFd [c1.fd, c2.fd, c3.fd] =
      computeMultiplicativeFd (([c1, c2, c3].filter fun c => c.cd == 0).map Cand.fd) := by
  rcases h1 with h1 | ⟨h1, h1f⟩ <;> rcases h2 with h2 | ⟨h2, h2f⟩ <;>
    rcases h3 with h3 | ⟨h3, h3f⟩ <;>
    simp [computeMultiplicativeFd, List.filter, *]

/-- The two win conditions agree on candidates satisfying the
invariant. -/
theorem winsCombo_iff_spec (tCd : Nat) (tFd : ℚ) (c1 c2 c3 : Cand)
    (h1 : cdInv c1) (h2 : cdInv c2) (h3 : cdInv c3) :
    winsCombo tCd tFd c1 c2 c3 ↔ winsComboSpec tCd tFd c1 c2 c3 := by
  unfold winsCombo winsComboSpec
  rw [cmf_filter_of_cdInv c1 c2 c3 h1 h2 h3]

/-- C1: for every combination (c1, c2, c3) drawn one from each line
candidate list, the enumerator counts a win exactly when the cooldown
count strictly exceeds the baseline count (bonus ignored), or the
counts are equal and the multiplicatively combined bonus over the
non-cooldown lines strictly exceeds the baseline bonus; a combination
with fewer cooldown lines never counts; the returned value is the sum
of the weighted probability products over exactly the winning
combinations. -/
theorem calcProb_enumeration_correct (skillCooldown : Bool) (ctx : StatCtx)
    (legendaryPots uniquePots : List BonusPotentialEntry) (w : TierWeights)
    (tCd : Nat) (tFd : ℚ) :
    calcProb (line1Cands skillCooldown ctx legendaryPots)
        (line2Cands skillCooldown ctx uniquePots legendaryPots w)
        (line3Cands skillCooldown ctx uniquePots legendaryPots w) tCd tFd =
      ((line1Cands skillCooldown ctx legendaryPots).map fun c1 =>
        ((line2Cands skillCooldown ctx uniquePots legendaryPots w).map fun c2 =>
          ((line3Cands skillCooldown ctx uniquePots legendaryPots w).map fun c3 =>
            if winsComboSpec tCd tFd c1 c2 c3 then c1.prob * c2.prob * c3.prob
            else 0).sum).sum).sum := by
  rw [calcProb_eq_sum]
  refine congrArg List.sum (List.map_congr_left fun c1 h1 => ?_)
  refine congrArg List.sum (List.map_congr_left fun c2 h2 => ?_)
  refine congrArg List.sum (List.map_congr_left fun c3 h3 => ?_)
  exact if_congr
    (winsCombo_iff_spec tCd tFd c1 c2 c3
      (line1Cands_cdInv _ _ _ c1 h1)
      (line2Cands_cdInv _ _ _ _ _ c2 h2)
      (line3Cands_cdInv _ _ _ _ _ c3 h3))
    rfl rfl

/-- Monotonicity of the loop in the baseline bonus: raising the
baseline bonus with the cooldown count fixed can only shrink the set
of winning combinations, hence (with nonnegative weighted
probabilities) the accumulated sum. -/
theorem calcProb_anti_targetFd (l1 l2 l3 : List Cand) (tCd : Nat) (tFd tFd' : ℚ)
    (hle : tFd ≤ tFd')
    (hp1 : ∀ c ∈ l1, 0 ≤ c.prob) (hp2 : ∀ c ∈ l2, 0 ≤ c.prob)
    (hp3 : ∀ c ∈ l3, 0 ≤ c.prob) :
    calcProb l1 l2 l3 tCd tFd' ≤ calcProb l1 l2 l3 tCd tFd := by
  rw [calcProb_eq_sum, calcProb_eq_sum]
  refine List.sum_le_sum fun c1 h1 => ?_
  refine List.sum_le_sum fun c2 h2 => ?_
  refine List.sum_le_sum fun c3 h3 => ?_
  have hprod : 0 ≤ c1.prob * c2.prob * c3.prob :=
    mul_nonneg (mul_nonneg (hp1 c1 h1) (hp2 c2 h2)) (hp3 c3 h3)
  by_cases hw : winsCombo tCd tFd' c1 c2 c3
  · have hw0 : winsCombo tCd tFd c1 c2 c3 := by
      rcases hw with hw | ⟨hcd, hfd⟩
      · exact Or.inl hw
      · exact Or.inr ⟨hcd, lt_of_le_of_lt hle hfd⟩
    simp [hw, hw0]
  · simp only [hw, if_false]
    by_cases hw0 : winsCombo tCd tFd c1 c2 c3 <;> simp [hw0, hprod]

/-- Pulling a constant factor out of a sum of weighted
probabilities. -/
theorem sum_map_smul (l : List Cand) (a : ℚ) :
    (l.map fun c => a * c.prob).sum = a * (l.map Cand.prob).sum := by
  induction l with
  | nil => simp
  | cons c cs ih =>
    simp only [List.map_cons, List.sum_cons, ih]
    ring

/-- Upper bound for the loop: the winning mass is at most the product
of the per-line weighted-probability totals. -/
theorem calcProb_le_mass (l1 l2 l3 : List Cand) (tCd : Nat) (tFd : ℚ)
    (hp1 : ∀ c ∈ l1, 0 ≤ c.prob) (hp2 : ∀ c ∈ l2, 0 ≤ c.prob)
    (hp3 : ∀ c ∈ l3, 0 ≤ c.prob) :
    calcProb l1 l2 l3 tCd tFd ≤
      (l1.map Cand.prob).sum * (l2.map Cand.prob).sum * (l3.map Cand.prob).sum := by
  rw [calcProb_eq_sum]
  have step1 : ∀ c1 ∈ l1, ∀ c2 ∈ l2,
      (l3.map fun c3 =>
        if winsCombo tCd tFd c1 c2 c3 then c1.prob * c2.prob * c3.prob else 0).sum ≤
        c1.prob * c2.prob * (l3.map Cand.prob).sum := by
    intro c1 h1 c2 h2
    have := List.sum_le_sum (l := l3)
      (f := fun c3 => if winsCombo tCd tFd c1 c2 c3 then c1.prob * c2.prob * c3.prob else 0)
      (g := fun c3 => c1.prob * c2.prob * c3.prob)
      (fun c3 h3 => by
        by_cases hw : winsCombo tCd tFd c1 c2 c3
        · simp [hw]
        · simp only [hw, if_false]
          exact mul_nonneg (mul_nonneg (hp1 c1 h1) (hp2 c2 h2)) (hp3 c3 h3))
    calc (l3.map fun c3 =>
        if winsCombo tCd tFd c1 c2 c3 then c1.prob * c2.prob * c3.prob else 0).sum ≤
        (l3.map fun c3 => c1.prob * c2.prob * c3.prob).sum := this
      _ = (l3.map fun c3 => c1.prob * c2.prob * c3.prob).sum := rfl
      _ = c1.prob * c2.prob * (l3.map Cand.prob).sum := by
          rw [show (l3.map fun c3 => c1.prob * c2.prob * c3.prob) =
              (l3.map fun c3 => (c1.prob * c2.prob) * c3.prob) from
            List.map_congr_left fun c3 _ => by ring]
          exact sum_map_smul l3 (c1.prob * c2.prob)
  have step2 : ∀ c1 ∈ l1,
      (l2.map fun c2 =>
        (l3.map fun c3 =>
          if winsCombo tCd tFd c1 c2 c3 then c1.prob * c2.prob * c3.prob else 0).sum).sum ≤
        c1.prob * (l2.map Cand.prob).sum * (l3.map Cand.prob).sum := by
    intro c1 h1
    have hs3 : 0 ≤ (l3.map Cand.prob).sum :=
      List.sum_nonneg fun x hx => by
        obtain ⟨c, hc, rfl⟩ := List.mem_map.mp hx; exact hp3 c hc
    calc (l2.map fun c2 =>
        (l3.map fun c3 =>
          if winsCombo tCd tFd c1 c2 c3 then c1.prob * c2.prob * c3.prob else 0).sum).sum ≤
        (l2.map fun c2 => c1.prob * c2.prob * (l3.map Cand.prob).sum).sum :=
          List.sum_le_sum fun c2 h2 => step1 c1 h1 c2 h2
      _ = c1.prob * (l2.map Cand.prob).sum * (l3.map Cand.prob).sum := by
          rw [show (l2.map fun c2 => c1.prob * c2.prob * (l3.map Cand.prob).sum) =
              (l2.map fun c2 => (c1.prob * (l3.map Cand.prob).sum) * c2.prob) from
            List.map_congr_left fun c2 _ => by ring]
          rw [sum_map_smul l2 (c1.prob * (l3.map Cand.prob).sum)]
          ring
  calc (l1.map fun c1 =>
      (l2.map fun c2 =>
        (l3.map fun c3 =>
          if winsCombo tCd tFd c1 c2 c3 then c1.prob * c2.prob * c3.prob else 0).sum).sum).sum ≤
      (l1.map fun c1 => c1.prob * (l2.map Cand.prob).sum * (l3.map Cand.prob).sum).sum :=
        List.sum_le_sum fun c1 h1 => step2 c1 h1
    _ = (l1.map Cand.prob).sum * (l2.map Cand.prob).sum * (l3.map Cand.prob).sum := by
        rw [show (l1.map fun c1 => c1.prob * (l2.map Cand.prob).sum * (l3.map Cand.prob).sum) =
            (l1.map fun c1 => ((l2.map Cand.prob).sum * (l3.map Cand.prob).sum) * c1.prob) from
          List.map_congr_left fun c1 _ => by ring]
        rw [sum_map_smul l1 ((l2.map Cand.prob).sum * (l3.map Cand.prob).sum)]
        ring

/-- Lower bound for the loop: the winning mass is nonnegative whenever
the weighted probabilities are. -/
theorem calcProb_nonneg (l1 l2 l3 : List Cand) (tCd : Nat) (tFd : ℚ)
    (hp1 : ∀ c ∈ l1, 0 ≤ c.prob) (hp2 : ∀ c ∈ l2, 0 ≤ c.prob)
    (hp3 : ∀ c ∈ l3, 0 ≤ c.prob) :
    0 ≤ calcProb l1 l2 l3 tCd tFd := by
  rw [calcProb_eq_sum]
  refine List.sum_nonneg fun x hx => ?_
  obtain ⟨c1, h1, rfl⟩ := List.mem_map.mp hx
  refine List.sum_nonneg fun y hy => ?_
  obtain ⟨c2, h2, rfl⟩ := List.mem_map.mp hy
  refine List.sum_nonneg fun z hz => ?_
  obtain ⟨c3, h3, rfl⟩ := List.mem_map.mp hz
  by_cases hw : winsCombo tCd tFd c1 c2 c3
  · simp only [hw, if_true]
    exact mul_nonneg (mul_nonneg (hp1 c1 h1) (hp2 c2 h2)) (hp3 c3 h3)
  · simp [hw]

/-- Candidate probabilities on line 1 are nonnegative when the entry
probabilities are. -/
theorem line1Cands_prob_nonneg (skillCooldown : Bool) (ctx : StatCtx)
    (legendaryPots : List BonusPotentialEntry)
    (h : ∀ p ∈ legendaryPots, 0 ≤ p.probability) :
    ∀ c ∈ line1Cands skillCooldown ctx legendaryPots, 0 ≤ c.prob := by
  intro c hc
  obtain ⟨p, hp, rfl⟩ := List.mem_map.mp hc
  show 0 ≤ p.probability * 1
  exact mul_nonneg (h p hp) zero_le_one

/-- Candidate probabilities on line 2 are nonnegative when the entry
probabilities and the profile weights are. -/
theorem line2Cands_prob_nonneg (skillCooldown : Bool) (ctx : StatCtx)
    (uniquePots legendaryPots : List BonusPotentialEntry) (w : TierWeights)
    (hU : ∀ p ∈ uniquePots, 0 ≤ p.probability)
    (hL : ∀ p ∈ legendaryPots, 0 ≤ p.probability)
    (hwU : 0 ≤ w.line2UniqueW) (hwL : 0 ≤ w.line2LegW) :
    ∀ c ∈ line2Cands skillCooldown ctx uniquePots legendaryPots w, 0 ≤ c.prob := by
  intro c hc
  rcases List.mem_append.mp hc with h | h <;> obtain ⟨p, hp, rfl⟩ := List.mem_map.mp h
  · exact mul_nonneg (hU p hp) hwU
  · exact mul_nonneg (hL p hp) hwL

/-- Candidate probabilities on line 3 are nonnegative when the entry
probabilities and the profile weights are. -/
theorem line3Cands_prob_nonneg (skillCooldown : Bool) (ctx : StatCtx)
    (uniquePots legendaryPots : List BonusPotentialEntry) (w : TierWeights)
    (hU : ∀ p ∈ uniquePots, 0 ≤ p.probability)
    (hL : ∀ p ∈ legendaryPots, 0 ≤ p.probability)
    (hwU : 0 ≤ w.line3UniqueW) (hwL : 0 ≤ w.line3LegW) :
    ∀ c ∈ line3Cands skillCooldown ctx uniquePots legendaryPots w, 0 ≤ c.prob := by
  intro c hc
  rcases List.mem_append.mp hc with h | h <;> obtain ⟨p, hp, rfl⟩ := List.mem_map.mp h
  · exact mul_nonneg (hU p hp) hwU
  · exact mul_nonneg (hL p hp) hwL

/-! ### Claims -/

/-- C2 (amended): the accumulated winning mass is nonnegative whenever
every candidate weighted probability is nonnegative, and it is at most
1 provided additionally that the weighted probabilities of each line
sum to at most 1.  Without the per-line mass condition the sum can
exceed 1 (see the counterexample). -/
theorem calcProb_in_unit_interval (l1 l2 l3 : List Cand) (tCd : Nat) (tFd : ℚ)
    (hp1 : ∀ c ∈ l1, 0 ≤ c.prob) (hp2 : ∀ c ∈ l2, 0 ≤ c.prob)
    (hp3 : ∀ c ∈ l3, 0 ≤ c.prob)
    (hm1 : (l1.map Cand.prob).sum ≤ 1) (hm2 : (l2.map Cand.prob).sum ≤ 1)
    (hm3 : (l3.map Cand.prob).sum ≤ 1) :
    0 ≤ calcProb l1 l2 l3 tCd tFd ∧ calcProb l1 l2 l3 tCd tFd ≤ 1 := by
  have hs1 : 0 ≤ (l1.map Cand.prob).sum :=
    List.sum_nonneg fun x hx => by
      obtain ⟨c, hc, rfl⟩ := List.mem_map.mp hx; exact hp1 c hc
  have hs2 : 0 ≤ (l2.map Cand.prob).sum :=
    List.sum_nonneg fun x hx => by
      obtain ⟨c, hc, rfl⟩ := List.mem_map.mp hx; exact hp2 c hc
  have hs3 : 0 ≤ (l3.map Cand.prob).sum :=
    List.sum_nonneg fun x hx => by
      obtain ⟨c, hc, rfl⟩ := List.mem_map.mp hx; exact hp3 c hc
  refine ⟨calcProb_nonneg l1 l2 l3 tCd tFd hp1 hp2 hp3, ?_⟩
  calc calcProb l1 l2 l3 tCd tFd ≤
      (l1.map Cand.prob).sum * (l2.map Cand.prob).sum * (l3.map Cand.prob).sum :=
        calcProb_le_mass l1 l2 l3 tCd tFd hp1 hp2 hp3
    _ ≤ 1 := mul_le_one₀ (mul_le_one₀ hm1 hs2 hm2) hs3 hm3

/-- C2 witness: a concrete one-candidate-per-line instance inside the
unit interval. -/
theorem calcProb_in_unit_interval_witness :
    0 ≤ calcProb [⟨0, 0, 1⟩] [⟨0, 0, 1⟩] [⟨0, 0, 1⟩] 0 0 ∧
      calcProb [⟨0, 0, 1⟩] [⟨0, 0, 1⟩] [⟨0, 0, 1⟩] 0 0 ≤ 1 :=
  calcProb_in_unit_interval [⟨0, 0, 1⟩] [⟨0, 0, 1⟩] [⟨0, 0, 1⟩] 0 0
    (by intro c hc; simp only [List.mem_singleton] at hc; subst hc; norm_num)
    (by intro c hc; simp only [List.mem_singleton] at hc; subst hc; norm_num)
    (by intro c hc; simp only [List.mem_singleton] at hc; subst hc; norm_num)
    (by norm_num) (by norm_num) (by norm_num)

/-- C2 counterexample: with a legal catalog (a single legendary
cooldown entry of probability 1) and a tier-weight profile whose
weights are 2, the accumulated value is 4, outside the unit
interval. -/
theorem calcProb_exceeds_one_counterexample :
    ¬ (calcProb (line1Cands true ctx0 [cdPot]) (line2Cands true ctx0 [] [cdPot] heavyW)
        (line3Cands true ctx0 [] [cdPot] heavyW) 0 0 ≤ 1) := by
  have hval : calcProb (line1Cands true ctx0 [cdPot]) (line2Cands true ctx0 [] [cdPot] heavyW)
      (line3Cands true ctx0 [] [cdPot] heavyW) 0 0 = 4 := by
    norm_num [calcProb, line1Cands, line2Cands, line3Cands, toCand, isCd, cdPot, ctx0, heavyW]
  rw [hval]
  norm_num

/-- C3 (amended): the estimator maps a nonpositive probability to the
all-infinite record, a probability of at least 1 to percentiles of 1
with expected attempts 1 divided by p (the claim stated expected
attempts exactly 1, which fails above 1), and an interior probability
to expected attempts 1 divided by p with the geometric-distribution
quantile formula. -/
theorem buildResult_matches_amended_estimator (p : ℝ) :
    buildResult p = estimateAmendedSpec p := by
  by_cases h0 : p ≤ 0
  · have hn : ¬ 0 < p := not_lt.mpr h0
    simp [buildResult, estimateAmendedSpec, geomPercentile, h0, hn]
  · have hp : 0 < p := not_le.mp h0
    by_cases h1 : 1 ≤ p
    · simp [buildResult, estimateAmendedSpec, geomPercentile, h0, h1, hp]
    · simp [buildResult, estimateAmendedSpec, geomPercentile, h0, h1, hp]

/-- C3 counterexample: at probability 2 (reachable, see the C2
counterexample) the source computes expected attempts 1 divided by 2,
not the 1 the claim requires for p at least 1. -/
theorem buildResult_expected_attempts_counterexample :
    (1 : ℝ) ≤ 2 ∧ (buildResult 2).avgCubes = some (1 / 2) ∧ ((1 : ℝ) / 2) ≠ 1 := by
  refine ⟨by norm_num, ?_, by norm_num⟩
  show (if (0 : ℝ) < 2 then some ((1 : ℝ) / 2) else none) = some (1 / 2)
  rw [if_pos (by norm_num)]

/-- C4: with the catalog, tier-weight profile, stat table and
character level fixed, raising the baseline combined bonus while
keeping the baseline cooldown count unchanged never increases the
computed success probability. -/
theorem successProbability_antitone_in_baseline (skillCooldown : Bool) (ctx : StatCtx)
    (legendaryPots uniquePots : List BonusPotentialEntry) (w : TierWeights)
    (sel1 sel2 sel3 sel1' sel2' sel3' : Option BonusPotentialEntry)
    (hL : ∀ p ∈ legendaryPots, 0 ≤ p.probability)
    (hU : ∀ p ∈ uniquePots, 0 ≤ p.probability)
    (hw2U : 0 ≤ w.line2UniqueW) (hw2L : 0 ≤ w.line2LegW)
    (hw3U : 0 ≤ w.line3UniqueW) (hw3L : 0 ≤ w.line3LegW)
    (hcd : targetCdCount skillCooldown sel1' sel2' sel3' =
      targetCdCount skillCooldown sel1 sel2 sel3)
    (hfd : computeMultiplicativeFd (targetFds ctx sel1 sel2 sel3) ≤
      computeMultiplicativeFd (targetFds ctx sel1' sel2' sel3')) :
    calcProb (line1Cands skillCooldown ctx legendaryPots)
        (line2Cands skillCooldown ctx uniquePots legendaryPots w)
        (line3Cands skillCooldown ctx uniquePots legendaryPots w)
        (targetCdCount skillCooldown sel1' sel2' sel3')
        (computeMultiplicativeFd (targetFds ctx sel1' sel2' sel3')) ≤
      calcProb (line1Cands skillCooldown ctx legendaryPots)
        (line2Cands skillCooldown ctx uniquePots legendaryPots w)
        (line3Cands skillCooldown ctx uniquePots legendaryPots w)
        (targetCdCount skillCooldown sel1 sel2 sel3)
        (computeMultiplicativeFd (targetFds ctx sel1 sel2 sel3)) := by
  rw [hcd]
  exact calcProb_anti_targetFd _ _ _ _ _ _ hfd
    (line1Cands_prob_nonneg skillCooldown ctx legendaryPots hL)
    (line2Cands_prob_nonneg skillCooldown ctx uniquePots legendaryPots w hU hL hw2U hw2L)
    (line3Cands_prob_nonneg skillCooldown ctx uniquePots legendaryPots w hU hL hw3U hw3L)

/-- C4 witness: a concrete catalog where the baseline moves from the
empty selection (bonus 0) to an attack line of bonus 5 with the same
cooldown count. -/
theorem successProbability_antitone_in_baseline_witness :
    calcProb (line1Cands false ctxA [attPot]) (line2Cands false ctxA [] [attPot] unitW)
        (line3Cands false ctxA [] [attPot] unitW)
        (targetCdCount false (some attPot) none none)
        (computeMultiplicativeFd (targetFds ctxA (some attPot) none none)) ≤
      calcProb (line1Cands false ctxA [attPot]) (line2Cands false ctxA [] [attPot] unitW)
        (line3Cands false ctxA [] [attPot] unitW)
        (targetCdCount false none none none)
        (computeMultiplicativeFd (targetFds ctxA none none none)) :=
  successProbability_antitone_in_baseline false ctxA [attPot] [] unitW
    none none none (some attPot) none none
    (by intro p hp; simp only [List.mem_singleton] at hp; subst hp; norm_num [attPot])
    (by intro p hp; simp at hp)
    (by norm_num [unitW]) (by norm_num [unitW]) (by norm_num [unitW]) (by norm_num [unitW])
    rfl
    (by simp [computeMultiplicativeFd, targetFds, potentialToFd, isCd, ctxA, attPot,
      beq_iff_eq]; norm_num)

/-- C5: the combination aggregator computes the multiplicative
stacking formula, is 0 on the empty sequence, the identity on a
single bonus, invariant under permutation of its arguments, and
treats zero bonuses as neutral multiplicands. -/
theorem computeMultiplicativeFd_spec :
    (∀ fds : List ℚ,
      computeMultiplicativeFd fds = ((fds.map fun b => 1 + b / 100).prod - 1) * 100) ∧
    computeMultiplicativeFd [] = 0 ∧
    (∀ x : ℚ, computeMultiplicativeFd [x] = x) ∧
    (∀ l l' : List ℚ, l.Perm l' →
      computeMultiplicativeFd l = computeMultiplicativeFd l') ∧
    (∀ l : List ℚ, computeMultiplicativeFd (0 :: l) = computeMultiplicativeFd l) := by
  have hfold : ∀ (l : List ℚ) (a : ℚ),
      l.foldl (fun product fd => product * (1 + fd / 100)) a =
        a * (l.map fun b => 1 + b / 100).prod := by
    intro l
    induction l with
    | nil => intro a; simp
    | cons b bs ih =>
      intro a
      rw [List.foldl_cons, ih, List.map_cons, List.prod_cons]
      ring
  have hprod : ∀ fds : List ℚ,
      computeMultiplicativeFd fds = ((fds.map fun b => 1 + b / 100).prod - 1) * 100 := by
    intro fds
    unfold computeMultiplicativeFd
    rw [hfold, one_mul]
  refine ⟨hprod, by norm_num [computeMultiplicativeFd], ?_, ?_, ?_⟩
  · intro x
    rw [hprod]
    simp
  · intro l l' hperm
    rw [hprod, hprod, List.Perm.prod_eq (hperm.map fun b => 1 + b / 100)]
  · intro l
    rw [hprod, hprod, List.map_cons, List.prod_cons]
    norm_num

/-- C5 witness: single-line identity at 3 and permutation invariance
on a concrete two-element list. -/
theorem computeMultiplicativeFd_spec_witness :
    computeMultiplicativeFd [3] = 3 ∧
      computeMultiplicativeFd [1, 2] = computeMultiplicativeFd [2, 1] :=
  ⟨computeMultiplicativeFd_spec.2.2.1 3,
    computeMultiplicativeFd_spec.2.2.2.1 [1, 2] [2, 1] (List.Perm.swap 2 1 [])⟩

/-- C6: the effective bonus is 0 whenever the observed magnitude
stored for the alias-resolved stat is 0 or absent (an absent table row
reads as magnitude 0), regardless of the entry magnitude; the guard
returns before the division expression is reached, so no division by
the observed magnitude is performed. -/
theorem potentialToFd_zero_of_observed_zero (ctx : StatCtx) (entry : BonusPotentialEntry)
    (h : ∀ s, entry.statType = some s →
      ((ctx.statValues ((ctx.aliases s).getD s)).map StatVal.value).getD 0 = 0) :
    potentialToFd ctx entry = 0 := by
  cases hst : entry.statType with
  | none => simp [potentialToFd, hst]
  | some st =>
    cases hsv : entry.statValue with
    | none => simp [potentialToFd, hst, hsv]
    | some sv =>
      have hval := h st hst
      simp [potentialToFd, hst, hsv, hval]

/-- C6 witness: an entry with a large magnitude whose stat has no
table row. -/
theorem potentialToFd_zero_of_observed_zero_witness :
    potentialToFd ctx0 attPot = 0 :=
  potentialToFd_zero_of_observed_zero ctx0 attPot fun _ _ => rfl

/-- C7 (amended): the calculation produces no result at all — rather
than a result with probability 0 — exactly when the item category is
empty or the item level does not parse to a number; in particular it
returns, it never throws, and for such inputs the enumeration is
skipped entirely. -/
theorem handleCalc_none_iff (allPots : List BonusPotentialEntry) (clean : String → String)
    (ctx : StatCtx) (skillCooldown : Bool) (itemType level : String)
    (line1 line2 line3 : String) (bright glowing : TierWeights) :
    handleCalc allPots clean ctx skillCooldown itemType level line1 line2 line3
        bright glowing = none ↔
      (itemType = "" ∨ parseIntJS level = none) := by
  unfold handleCalc
  cases h : parseIntJS level with
  | none => simp
  | some lvl =>
    by_cases hit : itemType = ""
    · simp [hit]
    · simp [hit]

/-- C7 counterexample: with the item category missing the source
computes no success probability at all — the claimed probability-0
result does not exist. -/
theorem handleCalc_guard_counterexample :
    handleCalc demoPots (fun s => s) ctx0 false "" "160" "" "" "" unitW unitW = none ∧
      ∀ r : ℚ × ℚ,
        handleCalc demoPots (fun s => s) ctx0 false "" "160" "" "" "" unitW unitW ≠ some r := by
  have hnone : handleCalc demoPots (fun s => s) ctx0 false "" "160" "" "" "" unitW unitW =
      none := by
    decide
  exact ⟨hnone, fun r hr => by rw [hnone] at hr; exact Option.noConfusion hr⟩

/-- C8: the catalog filter keeps exactly the entries whose item type
matches the requested one and whose level range contains the item
level, a missing minimum reading as 0 and a missing maximum as
unbounded. -/
theorem eligibleEntries_characterization (allPots : List BonusPotentialEntry)
    (itemType : String) (lvl : Int) (p : BonusPotentialEntry) :
    p ∈ eligibleEntries allPots itemType lvl ↔
      p ∈ allPots ∧ p.itemType = itemType ∧ p.levelRangeMin.getD 0 ≤ lvl ∧
        ∀ mx, p.levelRangeMax = some mx → lvl ≤ mx := by
  unfold eligibleEntries inRange
  rw [List.mem_filter]
  cases hmx : p.levelRangeMax with
  | none => simp [hmx, and_assoc]
  | some mx => simp [hmx, and_assoc]

/-- C9: whenever some eligible entry with the selected display name is
legendary, the lookup — for line 1 the legendary-first form, for lines
2 and 3 the legendary-then-unique chain — resolves to a legendary
entry with that name, so the legendary data defines the baseline
line. -/
theorem findPot_prefers_legendary (clean : String → String)
    (allPots : List BonusPotentialEntry) (potName : String)
    (h : ∃ p ∈ allPots, clean p.potential = potName ∧ p.tier = "legendary") :
    (∃ q, findPot clean allPots potName "legendary" = some q ∧
      clean q.potential = potName ∧ q.tier = "legendary") ∧
    (∃ q, (findPot clean allPots potName "legendary" <|>
        findPot clean allPots potName "unique") = some q ∧
      clean q.potential = potName ∧ q.tier = "legendary") := by
  obtain ⟨p, hp, hname, htier⟩ := h
  have hsome :
      (allPots.find? fun q => clean q.potential == potName && q.tier == "legendary").isSome := by
    rw [List.find?_isSome]
    exact ⟨p, hp, by simp [hname, htier]⟩
  obtain ⟨q, hq⟩ := Option.isSome_iff_exists.mp hsome
  have hpred := List.find?_some hq
  have hq1 : clean q.potential = potName ∧ q.tier = "legendary" := by
    simpa using hpred
  have hfind : findPot clean allPots potName "legendary" = some q := by
    unfold findPot
    rw [hq]
    rfl
  refine ⟨⟨q, hfind, hq1.1, hq1.2⟩, ⟨q, ?_, hq1.1, hq1.2⟩⟩
  rw [hfind]
  rfl

/-- C9 witness: a catalog holding a unique and a legendary entry under
the same display name resolves to the legendary one. -/
theorem findPot_prefers_legendary_witness :
    ∃ q, findPot (fun s => s) demoPots "A" "legendary" = some q ∧
      (fun s => s) q.potential = "A" ∧ q.tier = "legendary" :=
  (findPot_prefers_legendary (fun s => s) demoPots "A"
    ⟨legA, by simp [demoPots], rfl, rfl⟩).1

/-- C10: both the skill-cooldown test and the per-9-levels membership
test read the raw stat kind, while only the stat-table lookup goes
through the alias table: an entry whose raw kind is Skill Cooldown
contributes 0 whatever its alias resolves to, and the floor(level / 9)
scaling applies exactly when the raw kind is in the per-9 set,
independently of whether the canonical name is. -/
theorem potentialToFd_uses_raw_statKind :
    (∀ (ctx : StatCtx) (entry : BonusPotentialEntry),
      entry.statType = some "Skill Cooldown" → potentialToFd ctx entry = 0) ∧
    (∀ (ctx : StatCtx) (entry : BonusPotentialEntry) (st : String) (sv : ℚ),
      entry.statType = some st → entry.statValue = some sv →
      st ≠ "" → st ≠ "Skill Cooldown" →
      ((ctx.statValues ((ctx.aliases st).getD st)).map StatVal.value).getD 0 ≠ 0 →
      potentialToFd ctx entry =
        (if ctx.per9 st then sv * ((Int.fdiv ctx.charLevel 9 : Int) : ℚ) else sv) *
          (((ctx.statValues ((ctx.aliases st).getD st)).map StatVal.fd).getD 0 /
            ((ctx.statValues ((ctx.aliases st).getD st)).map StatVal.value).getD 0)) := by
  constructor
  · intro ctx entry hst
    cases hsv : entry.statValue with
    | none => simp [potentialToFd, hst, hsv]
    | some sv => simp [potentialToFd, hst, hsv]
  · intro ctx entry st sv hst hsv hne hncd hval
    simp [potentialToFd, hst, hsv, hne, hncd, hval]

/-- C10 witness: under a context whose alias sends the raw name to a
canonical one outside the per-9 set while the raw name is inside it,
the scaling still applies: the result is 10 times floor(260 / 9) times
the 5-per-10 observed ratio, and a raw Skill Cooldown entry yields
0. -/
theorem potentialToFd_uses_raw_statKind_witness :
    potentialToFd ctxB cdPot = 0 ∧ potentialToFd ctxB rawPot = 140 := by
  refine ⟨potentialToFd_uses_raw_statKind.1 ctxB cdPot rfl, ?_⟩
  have h := potentialToFd_uses_raw_statKind.2 ctxB rawPot "Raw" 10 rfl rfl
    (by decide) (by decide) (by simp [ctxB])
  rw [h]
  simp [ctxB]
  norm_num

end MapleBpots
